import Mathlib

/-!
Verification of the simdzone zone-parser front end (zone.c, visit.h,
generic/ip6.h) against its natural-language specification.

Each C function relevant to the claims is shallowly embedded as an
executable Lean definition.  Machine integers are modelled as Nat with
explicit mod where the C code truncates; C strings are lists of bytes
(Nat below 256, never 0); fallible code returns Option or an explicit
error flag; the setjmp/longjmp failure channel is modelled with Except.
-/

namespace Simdzone

/-- Bytes of an ASCII string literal, for writing concrete inputs. -/
def bytes (s : String) : List Nat := s.data.map Char.toNat

/-! ## Result codes

Modelled from the spec: zone.h is not under src/.  The spec (section 6)
requires distinct negative codes for out-of-memory, I/O error, bad
parameter, syntax error, semantic error and sink errors; the values
below follow the upstream header layout (multiples of -256). -/

def ZONE_SUCCESS : Int := 0

/-- Modelled from the spec: the distinct negative bad-parameter code. -/
def ZONE_BAD_PARAMETER : Int := -1024

/-- Modelled from the spec: the distinct negative out-of-memory code. -/
def ZONE_OUT_OF_MEMORY : Int := -768

/-- Modelled from the spec: the distinct negative I/O-error code. -/
def ZONE_IO_ERROR : Int := -1280

/-- Modelled from the spec: the distinct negative semantic-error code. -/
def ZONE_SEMANTIC_ERROR : Int := -512

/-! ## DNS classes (zone.h values are the RFC 1035 class numbers) -/

def ZONE_IN : Nat := 1
def ZONE_CS : Nat := 2
def ZONE_CH : Nat := 3
def ZONE_HS : Nat := 4

def INT32_MAX : Nat := 2147483647

/-! ## Options and check_options (zone.c lines 34-61)

Pointer-valued fields are modelled by their null test: a Bool for the
callbacks and allocator members, an Option for the origin string. -/

structure zone_options where
  allocator_malloc : Bool
  allocator_realloc : Bool
  allocator_free : Bool
  allocator_arena : Bool
  accept_add : Bool
  origin : Option (List Nat)
  default_ttl : Nat
  default_class : Nat
deriving DecidableEq, Repr

/-- The count of non-null allocator members computed at the top of
check_options. -/
def alloc_count (o : zone_options) : Nat :=
  (if o.allocator_malloc then 1 else 0) +
  (if o.allocator_realloc then 1 else 0) +
  (if o.allocator_free then 1 else 0) +
  (if o.allocator_arena then 1 else 0)

/-- Embedding of check_options, zone.c lines 34-61.  The C switch over
default_class admits exactly ZONE_IN, ZONE_CS, ZONE_CH and ZONE_HS. -/
def check_options (o : zone_options) : Int :=
  if ¬(alloc_count o = 0 ∨ alloc_count o = 4) then ZONE_BAD_PARAMETER
  else if o.accept_add = false then ZONE_BAD_PARAMETER
  else if o.origin = none then ZONE_BAD_PARAMETER
  else if o.default_ttl = 0 ∨ INT32_MAX < o.default_ttl then ZONE_BAD_PARAMETER
  else if o.default_class = ZONE_IN ∨ o.default_class = ZONE_CS ∨
          o.default_class = ZONE_CH ∨ o.default_class = ZONE_HS then ZONE_SUCCESS
  else ZONE_BAD_PARAMETER

/-- The invalidity conditions exactly as the claim states them:
missing accept.add, missing origin, default_ttl zero or above INT32_MAX,
default_class outside the four known classes, or a partially specified
allocator override. -/
def bad_options (o : zone_options) : Prop :=
  o.accept_add = false ∨ o.origin = none ∨
  o.default_ttl = 0 ∨ 2 ^ 31 - 1 < o.default_ttl ∨
  ¬(o.default_class = ZONE_IN ∨ o.default_class = ZONE_CS ∨
    o.default_class = ZONE_CH ∨ o.default_class = ZONE_HS) ∨
  (0 < alloc_count o ∧ alloc_count o < 4)

instance (o : zone_options) : Decidable (bad_options o) := by
  unfold bad_options; infer_instance

/-! ## parse_origin (zone.c lines 64-95)

The C routine walks the NUL-terminated origin string, writing a
length-prefixed name into a 255-byte array; lab indexes the length slot
of the label being built and oct is one past the last written octet.
The embedding carries the equivalent functional state: done holds the
octets of all completed labels (positions below lab), cur holds the
content bytes of the current label (positions lab+1 to oct-1), and oct
mirrors the C counter, so that oct = 1 + done.length + cur.length.  The
pending length slot str[lab] is written when the label ends, and the
final value of str[lab] (the root check after the loop) is cur.length
at the NUL. -/

def po_loop : List Nat → List Nat → List Nat → Nat → Option (List Nat)
  | [], done, cur, oct =>
    -- chr == NUL iteration, then the str[lab] root check after the loop
    if 255 ≤ oct then none
    else if 63 < cur.length then none
    else if cur.length ≠ 0 then none
    else some (done ++ [0])
  | chr :: rest, done, cur, oct =>
    if 255 ≤ oct then none
    else if chr = 46 then
      if cur.length = 0 ∧ done ≠ [] then none
      else if 63 < cur.length then none
      else po_loop rest (done ++ cur.length :: cur) [] (oct + 1)
    else po_loop rest done (cur ++ [chr]) (oct + 1)

/-- Embedding of parse_origin.  Returns the produced name octets on
success (the C routine also stores the returned a byte count through
len, which here is the length of the returned list) and none where the
C routine returns -1. -/
def parse_origin (origin : List Nat) : Option (List Nat) :=
  po_loop origin [] [] 1

/-! ## Claim-side name vocabulary -/

/-- Split a byte string on a separator byte; dotSplit below instantiates
this at the dot to give the dot-separated labels of a textual name. -/
def splitByte (sep : Nat) : List Nat → List (List Nat)
  | [] => [[]]
  | c :: rest =>
    if c = sep then [] :: splitByte sep rest
    else
      match splitByte sep rest with
      | [] => [[c]]
      | h :: t => (c :: h) :: t

/-- The dot-separated components of a textual name. -/
def dotSplit (s : List Nat) : List (List Nat) := splitByte 46 s

/-- Wire encoding of a label list: each label length-prefixed. -/
def flatLabels (ls : List (List Nat)) : List Nat :=
  (ls.map (fun l => l.length :: l)).flatten

/-! ## IPv6 text parsing (generic/ip6.h lines 22-40)

parse_ip6 copies the token into a NUL-terminated stack buffer of
INET6_ADDRSTRLEN + 1 bytes and hands it to inet_pton(AF_INET6, ...).
inet_pton is libc, not part of this repository. -/

/-- Value of an ASCII hex digit byte, none for other bytes. -/
def hexVal (c : Nat) : Option Nat :=
  if 48 ≤ c ∧ c ≤ 57 then some (c - 48)
  else if 97 ≤ c ∧ c ≤ 102 then some (c - 87)
  else if 65 ≤ c ∧ c ≤ 70 then some (c - 55)
  else none

/-- Modelled from the spec: one hextet of an IPv6 textual address, one
to four hex digits. -/
def parseHexGroup (s : List Nat) : Option Nat :=
  if s = [] ∨ 4 < s.length then none
  else
    s.foldl
      (fun acc c =>
        match acc, hexVal c with
        | some v, some d => some (v * 16 + d)
        | _, _ => none)
      (some 0)

/-- Modelled from the spec: one decimal octet of an embedded IPv4 tail,
one to three digits, value at most 255, no leading zero (the standard
inet_pton dotted-quad rules). -/
def parseDecOctet (s : List Nat) : Option Nat :=
  if s = [] ∨ 3 < s.length then none
  else if 1 < s.length ∧ s.headD 0 = 48 then none
  else
    match s.foldl
        (fun acc c =>
          match acc with
          | some v => if 48 ≤ c ∧ c ≤ 57 then some (v * 10 + (c - 48)) else none
          | none => none)
        (some 0) with
    | some v => if v ≤ 255 then some v else none
    | none => none

/-- Modelled from the spec: an embedded IPv4 tail, four dot-separated
decimal octets yielding four wire bytes. -/
def parseIPv4Tail (s : List Nat) : Option (List Nat) :=
  match (splitByte 46 s).mapM parseDecOctet with
  | some [a, b, c, d] => some [a, b, c, d]
  | _ => none

/-- Locate the first double colon, returning the bytes before and after
it. -/
def findDC : List Nat → Option (List Nat × List Nat)
  | 58 :: 58 :: rest => some ([], rest)
  | c :: rest =>
    match findDC rest with
    | some (l, r) => some (c :: l, r)
    | none => none
  | [] => none

/-- Colon-separated pieces to wire bytes: every piece is a hextet (two
bytes, big endian); when allow4 is set the final piece may instead be an
embedded IPv4 tail (four bytes). -/
def parsePieces (allow4 : Bool) : List (List Nat) → Option (List Nat)
  | [] => some []
  | [p] =>
    (match parseHexGroup p with
     | some v => some [v / 256, v % 256]
     | none => if allow4 then parseIPv4Tail p else none)
  | p :: ps =>
    match parseHexGroup p with
    | some v =>
      match parsePieces allow4 ps with
      | some bs => some (v / 256 :: v % 256 :: bs)
      | none => none
    | none => none

/-- Modelled from the spec: inet_pton(AF_INET6) on a byte string, the
standard IPv6 text format (section 4.5 of the spec: hextets separated by
colons, at most one double-colon compression expanding to zero bytes,
optional embedded IPv4 tail), producing the sixteen wire octets. -/
def inet_pton6 (s : List Nat) : Option (List Nat) :=
  match findDC s with
  | none =>
    (match parsePieces true (splitByte 58 s) with
     | some bs => if bs.length = 16 then some bs else none
     | none => none)
  | some (l, r) =>
    match (if l = [] then some [] else parsePieces false (splitByte 58 l)) with
    | none => none
    | some lp =>
      match (if r = [] then some [] else parsePieces true (splitByte 58 r)) with
      | none => none
      | some rp =>
        if 16 ≤ lp.length + rp.length then none
        else some (lp ++ List.replicate (16 - (lp.length + rp.length)) 0 ++ rp)

/-- POSIX value used by the buffer and length check in parse_ip6. -/
def INET6_ADDRSTRLEN : Nat := 46

/-- The active RDATA block: a committed octet list plus the committed
length counter that parse_ip6 advances. -/
structure rdata_t where
  octets : List Nat
  length : Nat
deriving DecidableEq, Repr

/-- Embedding of parse_ip6 (generic/ip6.h lines 22-40).  A false first
component is the SEMANTIC_ERROR longjmp, which leaves the RDATA block
untouched.  The copy into the NUL-terminated stack buffer means
inet_pton only sees the token up to its first NUL byte. -/
def parse_ip6 (rdata : rdata_t) (token : List Nat) : Bool × rdata_t :=
  if INET6_ADDRSTRLEN < token.length then (false, rdata)
  else
    match inet_pton6 (token.takeWhile (fun b => b != 0)) with
    | none => (false, rdata)
    | some addr => (true, ⟨rdata.octets ++ addr, rdata.length + 16⟩)

/-! ## Target selection (zone.c lines 100-148)

Both vector targets are taken as compiled in (ZONE_SUPPORTS_HASWELL and
ZONE_SUPPORTS_WESTMERE set), matching the targets array of zone.c.
detect_supported_architectures and the instruction-set constants live in
isadetection.h, which is not under src/; they are modelled from the
spec as a CPU feature bitmask parameter with distinct bits per set. -/

/-- Modelled from the spec: the AVX2 feature bit. -/
def AVX2 : Nat := 512

/-- Modelled from the spec: the SSE4.2 feature bit. -/
def SSE42 : Nat := 64

structure Target where
  name : List Nat
  instruction_set : Nat
deriving DecidableEq, Repr

/-- The targets array of zone.c lines 117-125. -/
def targets : List Target :=
  [⟨bytes "haswell", AVX2⟩, ⟨bytes "westmere", SSE42⟩, ⟨bytes "fallback", 0⟩]

/-- ASCII lowercase of one byte, as tolower does for ASCII input. -/
def to_lower (c : Nat) : Nat := if 65 ≤ c ∧ c ≤ 90 then c + 32 else c

/-- strcasecmp equality on ASCII byte strings. -/
def nameEq (a b : List Nat) : Bool := a.map to_lower == b.map to_lower

/-- The first loop of select_target: scan for a target whose name
matches the ZONE_TARGET value, counting from zero; none if the loop
runs off the end. -/
def find_target_index (p : List Nat) : List Target → Option Nat
  | [] => none
  | t :: ts =>
    if nameEq p t.name then some 0
    else (find_target_index p ts).map (· + 1)

/-- The starting index of the second loop: the matched index when
ZONE_TARGET names a target, zero otherwise (count = 0 when the first
loop runs to length, and when ZONE_TARGET is unset). -/
def preferred_index (pref : Option (List Nat)) : Nat :=
  match pref with
  | none => 0
  | some p => (find_target_index p targets).getD 0

/-- The second loop of select_target: return the first target from the
current position whose instruction set is empty or intersects the
supported mask. -/
def select_loop (supported : Nat) : List Target → Option Target
  | [] => none
  | t :: ts =>
    if t.instruction_set = 0 ∨ t.instruction_set &&& supported ≠ 0 then some t
    else select_loop supported ts

/-- Embedding of select_target (zone.c lines 127-148): pref is the
value of the ZONE_TARGET environment variable, supported the CPU
feature mask; the final return of targets[length - 1] is the last
element of the array. -/
def select_target (pref : Option (List Nat)) (supported : Nat) : Target :=
  match select_loop supported (targets.drop (preferred_index pref)) with
  | some t => t
  | none => targets.getLastD ⟨[], 0⟩

/-! ## accept_rr (visit.h lines 15-35) and parse (zone.c lines 150-169) -/

/-- An owner or RDATA buffer as accept_rr reads it. -/
structure Buf where
  length : Nat
  octets : List Nat
deriving DecidableEq, Repr

/-- The parser state accept_rr touches: the assembled owner, the
per-file inheritance fields, the caller-provided RDATA cache and the
index of the active RDATA block (parser.rdata points into the cache). -/
structure PState where
  owner : Buf
  last_type : Nat
  last_class : Nat
  last_ttl : Nat
  cache_rdata : List Buf
  rdata : Nat
deriving DecidableEq, Repr

def activeRdata (st : PState) : Buf := st.cache_rdata.getD st.rdata ⟨0, []⟩

/-- The argument record accept_rr builds for the accept.add callback:
owner length is cast to uint8_t and RDATA length to uint16_t. -/
structure AcceptArgs where
  owner_length : Nat
  owner_octets : List Nat
  rtype : Nat
  rclass : Nat
  ttl : Nat
  rdlength : Nat
  rdata_octets : List Nat
deriving DecidableEq, Repr

def accept_args (st : PState) : AcceptArgs :=
  { owner_length := st.owner.length % 256
    owner_octets := st.owner.octets
    rtype := st.last_type
    rclass := st.last_class
    ttl := st.last_ttl
    rdlength := (activeRdata st).length % 65536
    rdata_octets := (activeRdata st).octets }

/-- Embedding of accept_rr: invoke the callback on the argument record;
a negative return longjmps to the stored environment (the error
channel), a non-negative return switches the active RDATA pointer to
that cache slot. -/
def accept_rr (cb : AcceptArgs → Nat → Int) (user_data : Nat) (st : PState) :
    Except Int PState :=
  let result := cb (accept_args st) user_data
  if result < 0 then Except.error result
  else Except.ok { st with rdata := result.toNat }

/-- Embedding of parse (zone.c lines 150-169): the setjmp switch runs
the selected target parser; a zero setjmp return takes the normal path
and returns the target result (asserted ZONE_SUCCESS), a longjmp
arrives with the negative code which becomes the result. -/
def parse (body : PState → Except Int Int) (st : PState) : Int :=
  match body st with
  | Except.ok r => r
  | Except.error e => e

/-! ## File resources (zone.c lines 171-287)

open_file allocates the name string (zone_strndup), canonicalizes the
path (realpath plus zone_strdup), opens the handle (fopen) and
allocates the window buffer, in that order; each step can fail.  The
embedding tracks each owned resource of the zone_file and injects the
failing step as a parameter, since the allocator and the filesystem are
outside the repository. -/

/-- A C string field of a zone_file: null, the static not_a_file
sentinel, or a heap allocation (tagged so leaks are observable). -/
inductive CStr
  | null
  | static_str
  | alloc (id : Nat)
deriving DecidableEq, Repr

/-- Resource view of a zone_file: the name and path strings, the stdio
handle and the window buffer allocation. -/
structure zone_file_res where
  name : CStr
  path : CStr
  handle : Bool
  buffer_data : Bool
deriving DecidableEq, Repr

/-- Which step of open_file fails, if any. -/
inductive OpenStep
  | strndup_fail
  | realpath_fail
  | strdup_fail
  | fopen_fail
  | buffer_malloc_fail
  | all_ok
deriving DecidableEq, Repr

/-- Embedding of open_file (zone.c lines 171-219) on the resource view:
the returned code and the file state at each early return, in source
order (name dup, realpath, path dup, fopen, buffer malloc). -/
def open_file (f : zone_file_res) (step : OpenStep) : Int × zone_file_res :=
  match step with
  | OpenStep.strndup_fail => (ZONE_OUT_OF_MEMORY, f)
  | OpenStep.realpath_fail => (ZONE_IO_ERROR, { f with name := CStr.alloc 0 })
  | OpenStep.strdup_fail => (ZONE_OUT_OF_MEMORY, { f with name := CStr.alloc 0 })
  | OpenStep.fopen_fail =>
    (ZONE_IO_ERROR, { f with name := CStr.alloc 0, path := CStr.alloc 1 })
  | OpenStep.buffer_malloc_fail =>
    (ZONE_OUT_OF_MEMORY,
     { f with name := CStr.alloc 0, path := CStr.alloc 1, handle := true })
  | OpenStep.all_ok =>
    (ZONE_SUCCESS,
     { name := CStr.alloc 0, path := CStr.alloc 1, handle := true,
       buffer_data := true })

/-- The assertions at the top of zone_close_file (zone.c lines 236-237):
name and path are the not_a_file sentinel exactly when the handle is
null. -/
def close_file_assert (f : zone_file_res) : Prop :=
  ((f.name = CStr.static_str) ↔ f.handle = false) ∧
  ((f.path = CStr.static_str) ↔ f.handle = false)

instance (f : zone_file_res) : Decidable (close_file_assert f) := by
  unfold close_file_assert; infer_instance

/-- Embedding of zone_close_file (zone.c lines 232-255): an early
return when the handle is null, otherwise release the buffer, the name,
the path and the handle; the second component records whether the
zone_file struct itself was freed (it is kept when it is the embedded
parser.first). -/
def zone_close_file (f : zone_file_res) (is_first : Bool) :
    zone_file_res × Bool :=
  if f.handle = false then (f, false)
  else
    ({ name := CStr.null, path := CStr.null, handle := false,
       buffer_data := false },
     !is_first)

/-- Embedding of zone_open_file (zone.c lines 257-275): allocate and
zero a fresh zone_file, run open_file, and on failure hand the file to
zone_close_file before returning the code.  Results: the return code,
the final resource state of the file, and whether the struct was
freed. -/
def zone_open_file (step : OpenStep) : Int × zone_file_res × Bool :=
  let f0 : zone_file_res := ⟨CStr.null, CStr.null, false, false⟩
  let r := open_file f0 step
  if r.1 < 0 then
    let c := zone_close_file r.2 false
    (r.1, c.1, c.2)
  else (ZONE_SUCCESS, r.2, false)

/-! ## zone_open (zone.c lines 289-327) and the setup phase of
zone_parse_string (zone.c lines 349-396) -/

/-- The per-file fields the initialization claims talk about. -/
structure zone_file where
  origin : List Nat
  owner : List Nat
  last_type : Nat
  last_class : Nat
  last_ttl : Nat
  line : Nat
deriving DecidableEq, Repr

/-- Embedding of zone_open: check_options, then open_file (the first
I/O), then parse_origin, then the field initialization.  open_result
stands for the outcome of open_file (zero or a negative code); the
middle component records whether open_file was invoked, i.e. whether
any I/O was attempted before returning. -/
def zone_open_m (o : zone_options) (open_result : Int) :
    Int × Bool × Option zone_file :=
  if check_options o < 0 then (check_options o, false, none)
  else if open_result < 0 then (open_result, true, none)
  else
    match parse_origin (o.origin.getD []) with
    | none => (ZONE_BAD_PARAMETER, true, none)
    | some org =>
      (ZONE_SUCCESS, true,
       some { origin := org, owner := org, last_type := 0,
              last_class := o.default_class, last_ttl := o.default_ttl,
              line := 1 })

/-- Embedding of the setup phase of zone_parse_string, up to the call
of parse: check_options, then parse_origin whose raw return value is
surfaced on failure (the C code returns result = parse_origin(...)
directly, which is -1), then the field initialization.  No I/O is
performed on any path. -/
def zone_parse_string_setup (o : zone_options) : Int × Option zone_file :=
  if check_options o < 0 then (check_options o, none)
  else
    match parse_origin (o.origin.getD []) with
    | none => (-1, none)
    | some org =>
      (ZONE_SUCCESS,
       some { origin := org, owner := org, last_type := 0,
              last_class := o.default_class, last_ttl := o.default_ttl,
              line := 1 })

/-! ## Theorems -/

/-- C1: at every invocation of the accept callback, accept_rr passes
the owner length cast to uint8_t and the RDATA length cast to uint16_t,
so the owner length passed fits in 8 bits and the RDATA length passed
fits in 16 bits; within the asserted bounds of visit.h (owner length at
most UINT8_MAX, RDATA length at most UINT16_MAX) the passed values
equal the true buffer lengths. -/
theorem C1_accept_lengths (st : PState) :
    (accept_args st).owner_length < 2 ^ 8 ∧
    (accept_args st).rdlength < 2 ^ 16 ∧
    (st.owner.length ≤ 255 → (accept_args st).owner_length = st.owner.length) ∧
    ((activeRdata st).length ≤ 65535 →
      (accept_args st).rdlength = (activeRdata st).length) := by
  refine ⟨?_, ?_, ?_, ?_⟩ <;> simp [accept_args] <;> omega

/-- C1 witness: the bounds and the equalities instantiated at a
concrete parser state. -/
theorem C1_accept_lengths_witness :
    (accept_args ⟨⟨9, bytes "a."⟩, 1, 1, 3600, [⟨4, [1, 2, 3, 4]⟩], 0⟩).owner_length
        = 9 ∧
    (accept_args ⟨⟨9, bytes "a."⟩, 1, 1, 3600, [⟨4, [1, 2, 3, 4]⟩], 0⟩).rdlength
        = 4 :=
  ⟨(C1_accept_lengths ⟨⟨9, bytes "a."⟩, 1, 1, 3600, [⟨4, [1, 2, 3, 4]⟩], 0⟩).2.2.1
      (by decide),
   (C1_accept_lengths ⟨⟨9, bytes "a."⟩, 1, 1, 3600, [⟨4, [1, 2, 3, 4]⟩], 0⟩).2.2.2
      (by decide)⟩

/-- C2: accept_rr invokes the callback on the assembled record
arguments; a non-negative return N switches the active RDATA pointer to
cache slot N and parsing continues, while a negative return aborts
through the longjmp channel and that exact code is the value the
top-level parse function returns. -/
theorem C2_accept_dispatch (st : PState) (cb : AcceptArgs → Nat → Int)
    (ud : Nat) (rest : PState → Except Int Int) (r : Int)
    (h : cb (accept_args st) ud = r) :
    (0 ≤ r → accept_rr cb ud st = Except.ok { st with rdata := r.toNat }) ∧
    (r < 0 → accept_rr cb ud st = Except.error r ∧
      parse (fun s => (accept_rr cb ud s).bind rest) st = r) := by
  constructor
  · intro hr
    simp [accept_rr, h, not_lt.mpr hr]
  · intro hr
    have herr : accept_rr cb ud st = Except.error r := by
      simp [accept_rr, h, hr]
    refine ⟨herr, ?_⟩
    simp only [parse, herr]
    rfl

/-- C2 witness: a callback returning slot 2 switches the active RDATA
index to 2, and a callback returning -5 makes the whole parse return
-5, at a concrete state. -/
theorem C2_accept_dispatch_witness :
    accept_rr (fun _ _ => 2) 7 ⟨⟨3, [1, 97, 0]⟩, 1, 1, 60, [⟨0, []⟩], 0⟩ =
      Except.ok ⟨⟨3, [1, 97, 0]⟩, 1, 1, 60, [⟨0, []⟩], 2⟩ ∧
    parse (fun s => (accept_rr (fun _ _ => -5) 7 s).bind fun _ => Except.ok 0)
      ⟨⟨3, [1, 97, 0]⟩, 1, 1, 60, [⟨0, []⟩], 0⟩ = -5 :=
  ⟨(C2_accept_dispatch ⟨⟨3, [1, 97, 0]⟩, 1, 1, 60, [⟨0, []⟩], 0⟩
      (fun _ _ => 2) 7 (fun _ => Except.ok 0) 2 rfl).1 (by decide),
   ((C2_accept_dispatch ⟨⟨3, [1, 97, 0]⟩, 1, 1, 60, [⟨0, []⟩], 0⟩
      (fun _ _ => -5) 7 (fun _ => Except.ok 0) (-5) rfl).2 (by decide)).2⟩

/-- check_options only ever returns success or the bad-parameter
code. -/
lemma check_options_cases (o : zone_options) :
    check_options o = ZONE_SUCCESS ∨ check_options o = ZONE_BAD_PARAMETER := by
  unfold check_options
  split_ifs <;> simp

/-- C3: option checking returns the bad-parameter code exactly when the
options are invalid in one of the claimed ways, and succeeds with zero
on every other options record. -/
theorem C3_check_options (o : zone_options) :
    (check_options o = ZONE_BAD_PARAMETER ↔ bad_options o) ∧
    (¬ bad_options o → check_options o = ZONE_SUCCESS) := by
  have halloc : alloc_count o ≤ 4 := by
    unfold alloc_count; split_ifs <;> omega
  unfold check_options bad_options
  split_ifs with h1 h2 h3 h4 h5
  · -- accept.add missing (allocator passed its check)
    exact ⟨iff_of_true rfl (Or.inl h2), fun hnb => absurd (Or.inl h2) hnb⟩
  · -- origin missing
    exact ⟨iff_of_true rfl (Or.inr (Or.inl h3)),
           fun hnb => absurd (Or.inr (Or.inl h3)) hnb⟩
  · -- default_ttl out of range
    have hb : o.accept_add = false ∨ o.origin = none ∨
        o.default_ttl = 0 ∨ 2 ^ 31 - 1 < o.default_ttl ∨
        ¬(o.default_class = ZONE_IN ∨ o.default_class = ZONE_CS ∨
          o.default_class = ZONE_CH ∨ o.default_class = ZONE_HS) ∨
        (0 < alloc_count o ∧ alloc_count o < 4) := by
      rcases h4 with h | h
      · exact Or.inr (Or.inr (Or.inl h))
      · refine Or.inr (Or.inr (Or.inr (Or.inl ?_)))
        unfold INT32_MAX at h
        omega
    exact ⟨iff_of_true rfl hb, fun hnb => absurd hb hnb⟩
  · -- all checks passed
    have hnb : ¬ (o.accept_add = false ∨ o.origin = none ∨
        o.default_ttl = 0 ∨ 2 ^ 31 - 1 < o.default_ttl ∨
        ¬(o.default_class = ZONE_IN ∨ o.default_class = ZONE_CS ∨
          o.default_class = ZONE_CH ∨ o.default_class = ZONE_HS) ∨
        (0 < alloc_count o ∧ alloc_count o < 4)) := by
      intro hD
      rcases hD with hD | hD | hD | hD | hD | hD
      · exact h2 hD
      · exact h3 hD
      · exact h4 (Or.inl hD)
      · exact h4 (Or.inr (by unfold INT32_MAX; omega))
      · exact hD h5
      · omega
    exact ⟨iff_of_false (by decide) hnb, fun _ => rfl⟩
  · -- default_class unknown
    exact ⟨iff_of_true rfl (Or.inr (Or.inr (Or.inr (Or.inr (Or.inl h5))))),
           fun hnb =>
             absurd (Or.inr (Or.inr (Or.inr (Or.inr (Or.inl h5))))) hnb⟩
  · -- partially specified allocator
    have hb : o.accept_add = false ∨ o.origin = none ∨
        o.default_ttl = 0 ∨ 2 ^ 31 - 1 < o.default_ttl ∨
        ¬(o.default_class = ZONE_IN ∨ o.default_class = ZONE_CS ∨
          o.default_class = ZONE_CH ∨ o.default_class = ZONE_HS) ∨
        (0 < alloc_count o ∧ alloc_count o < 4) :=
      Or.inr (Or.inr (Or.inr (Or.inr (Or.inr (by omega)))))
    exact ⟨iff_of_true rfl hb, fun hnb => absurd hb hnb⟩

/-- C3 witness: a fully valid options record passes with zero, and a
record with default_ttl zero is rejected with the bad-parameter
code. -/
theorem C3_check_options_witness :
    check_options ⟨false, false, false, false, true, some (bytes "example."),
        3600, 1⟩ = ZONE_SUCCESS ∧
    check_options ⟨true, true, true, true, true, some (bytes "example."),
        0, 1⟩ = ZONE_BAD_PARAMETER :=
  ⟨(C3_check_options ⟨false, false, false, false, true,
      some (bytes "example."), 3600, 1⟩).2 (by decide),
   (C3_check_options ⟨true, true, true, true, true,
      some (bytes "example."), 0, 1⟩).1.mpr (by decide)⟩

/-- C10: when parse_ip6 raises a semantic error the active RDATA block
is unchanged (in particular its committed length), and when it returns
normally the committed length has increased by exactly 16. -/
theorem C10_rdata_commit (rdata : rdata_t) (token : List Nat) :
    ((parse_ip6 rdata token).1 = false → (parse_ip6 rdata token).2 = rdata) ∧
    ((parse_ip6 rdata token).1 = true →
      (parse_ip6 rdata token).2.length = rdata.length + 16) := by
  unfold parse_ip6
  split_ifs with h
  · simp
  · cases hp : inet_pton6 (token.takeWhile (fun b => b != 0)) <;> simp

/-- C10 witness: the success direction at the token ::1 (length grows
by 16) and the error direction at an invalid token (block unchanged),
from a concrete starting block. -/
theorem C10_rdata_commit_witness :
    (parse_ip6 ⟨[9, 9], 2⟩ (bytes "::1")).1 = true ∧
    (parse_ip6 ⟨[9, 9], 2⟩ (bytes "::1")).2.length = 2 + 16 ∧
    (parse_ip6 ⟨[9, 9], 2⟩ (bytes "zz")).2 = ⟨[9, 9], 2⟩ :=
  ⟨by decide,
   (C10_rdata_commit ⟨[9, 9], 2⟩ (bytes "::1")).2 (by decide),
   (C10_rdata_commit ⟨[9, 9], 2⟩ (bytes "zz")).1 (by decide)⟩

/-- C8: the code contradicts its own assertions.  When open_file fails
after duplicating the name but before fopen succeeds (here: realpath
fails), zone_open_file hands the file to zone_close_file with a null
handle; zone_close_file returns early, releasing nothing: the name
string stays allocated, the struct is not freed, and the entry
assertions of zone_close_file (name and path are the not_a_file
sentinel exactly when the handle is null) are false at that state. -/
theorem C8_close_file_leak :
    (zone_open_file OpenStep.realpath_fail).1 = ZONE_IO_ERROR ∧
    (zone_open_file OpenStep.realpath_fail).2.1.name = CStr.alloc 0 ∧
    (zone_open_file OpenStep.realpath_fail).2.1.name ≠ CStr.null ∧
    (zone_open_file OpenStep.realpath_fail).2.2 = false ∧
    ¬ close_file_assert
        (open_file ⟨CStr.null, CStr.null, false, false⟩
          OpenStep.realpath_fail).2 := by
  decide

/-- C9: whenever zone_open succeeds, and whenever the setup phase of
zone_parse_string succeeds, the file starts with last_type 0, last
class and TTL equal to the option defaults, owner equal to the parsed
origin, and line counter 1. -/
theorem C9_initial_state (o : zone_options) (r : Int) (f : zone_file) :
    (zone_open_m o r = (ZONE_SUCCESS, true, some f) →
      f.last_type = 0 ∧ f.last_class = o.default_class ∧
      f.last_ttl = o.default_ttl ∧ f.owner = f.origin ∧
      parse_origin (o.origin.getD []) = some f.origin ∧ f.line = 1) ∧
    (zone_parse_string_setup o = (ZONE_SUCCESS, some f) →
      f.last_type = 0 ∧ f.last_class = o.default_class ∧
      f.last_ttl = o.default_ttl ∧ f.owner = f.origin ∧
      parse_origin (o.origin.getD []) = some f.origin ∧ f.line = 1) := by
  constructor
  · intro h
    unfold zone_open_m at h
    split_ifs at h with h1 h2
    · simp at h
    · simp at h
    · cases hpo : parse_origin (o.origin.getD []) with
      | none => rw [hpo] at h; simp at h
      | some org =>
        rw [hpo] at h
        simp only [Prod.mk.injEq, Option.some.injEq] at h
        obtain ⟨-, -, hf⟩ := h
        subst hf
        exact ⟨rfl, rfl, rfl, rfl, rfl, rfl⟩
  · intro h
    unfold zone_parse_string_setup at h
    split_ifs at h with h1
    · simp at h
    · cases hpo : parse_origin (o.origin.getD []) with
      | none => rw [hpo] at h; simp [ZONE_SUCCESS] at h
      | some org =>
        rw [hpo] at h
        simp only [Prod.mk.injEq, Option.some.injEq] at h
        obtain ⟨-, hf⟩ := h
        subst hf
        exact ⟨rfl, rfl, rfl, rfl, rfl, rfl⟩

/-- C9 witness: both entry points instantiated at concrete options with
origin example. and TTL 3600, checking the initialized fields. -/
theorem C9_initial_state_witness :
    zone_open_m ⟨false, false, false, false, true, some (bytes "example."),
        3600, 1⟩ 0 =
      (ZONE_SUCCESS, true,
       some ⟨[7, 101, 120, 97, 109, 112, 108, 101, 0],
             [7, 101, 120, 97, 109, 112, 108, 101, 0], 0, 1, 3600, 1⟩) ∧
    (⟨[7, 101, 120, 97, 109, 112, 108, 101, 0],
      [7, 101, 120, 97, 109, 112, 108, 101, 0], 0, 1, 3600, 1⟩ :
        zone_file).last_ttl = 3600 ∧
    (⟨[7, 101, 120, 97, 109, 112, 108, 101, 0],
      [7, 101, 120, 97, 109, 112, 108, 101, 0], 0, 1, 3600, 1⟩ :
        zone_file).last_type = 0 :=
  ⟨by decide,
   ((C9_initial_state
      ⟨false, false, false, false, true, some (bytes "example."), 3600, 1⟩ 0
      ⟨[7, 101, 120, 97, 109, 112, 108, 101, 0],
       [7, 101, 120, 97, 109, 112, 108, 101, 0], 0, 1, 3600, 1⟩).1
      (by decide)).2.2.1,
   ((C9_initial_state
      ⟨false, false, false, false, true, some (bytes "example."), 3600, 1⟩ 0
      ⟨[7, 101, 120, 97, 109, 112, 108, 101, 0],
       [7, 101, 120, 97, 109, 112, 108, 101, 0], 0, 1, 3600, 1⟩).1
      (by decide)).1⟩

/-- Every address inet_pton6 accepts is sixteen octets. -/
lemma inet_pton6_length (s a : List Nat) (h : inet_pton6 s = some a) :
    a.length = 16 := by
  unfold inet_pton6 at h
  cases hdc : findDC s with
  | none =>
    simp only [hdc] at h
    cases hp : parsePieces true (splitByte 58 s) with
    | none => simp [hp] at h
    | some bs =>
      simp only [hp] at h
      by_cases hl : bs.length = 16
      · rw [if_pos hl] at h
        injection h with h2
        subst h2
        exact hl
      · rw [if_neg hl] at h
        simp at h
  | some lr =>
    obtain ⟨l, r⟩ := lr
    simp only [hdc] at h
    cases hl : (if l = [] then some [] else parsePieces false (splitByte 58 l)) with
    | none => simp [hl] at h
    | some lp =>
      simp only [hl] at h
      cases hr : (if r = [] then some [] else parsePieces true (splitByte 58 r)) with
      | none => simp [hr] at h
      | some rp =>
        simp only [hr] at h
        by_cases hlen : 16 ≤ lp.length + rp.length
        · rw [if_pos hlen] at h
          simp at h
        · rw [if_neg hlen] at h
          injection h with h2
          subst h2
          simp only [List.length_append, List.length_replicate]
          omega

/-- The valid 45-character IPv6 address used against claim C4: six
hextets and an embedded IPv4 tail. -/
def ip6_long_token : List Nat :=
  bytes "1111:2222:3333:4444:5555:6666:102.103.104.105"

/-- The sixteen wire octets of ip6_long_token. -/
def ip6_long_addr : List Nat :=
  [17, 17, 34, 34, 51, 51, 68, 68, 85, 85, 102, 102, 102, 103, 104, 105]

/-- C4 counterexample: the claim says every token longer than 39
characters raises a semantic error, but the length check of parse_ip6
uses INET6_ADDRSTRLEN (46): this valid 45-character address is accepted
and sixteen octets are appended, with no semantic error. -/
theorem C4_counterexample :
    39 < ip6_long_token.length ∧
    inet_pton6 ip6_long_token = some ip6_long_addr ∧
    parse_ip6 ⟨[], 0⟩ ip6_long_token = (true, ⟨ip6_long_addr, 16⟩) := by
  decide

/-- C4 amended: parse_ip6 consumes one token; a token longer than
INET6_ADDRSTRLEN (46) characters raises a semantic error, and otherwise
the token, truncated at its first NUL byte, is handed to the IPv6 text
parser: on success exactly sixteen octets are appended to the active
RDATA block, on failure a semantic error is raised. -/
theorem C4_ip6_decode (rdata : rdata_t) (token : List Nat) :
    (INET6_ADDRSTRLEN < token.length → parse_ip6 rdata token = (false, rdata)) ∧
    (token.length ≤ INET6_ADDRSTRLEN →
      (∀ a, inet_pton6 (token.takeWhile (fun b => b != 0)) = some a →
        parse_ip6 rdata token =
          (true, ⟨rdata.octets ++ a, rdata.length + 16⟩) ∧ a.length = 16) ∧
      (inet_pton6 (token.takeWhile (fun b => b != 0)) = none →
        parse_ip6 rdata token = (false, rdata))) := by
  unfold parse_ip6
  constructor
  · intro h
    rw [if_pos h]
  · intro h
    rw [if_neg (not_lt.mpr h)]
    constructor
    · intro a ha
      rw [ha]
      exact ⟨rfl, inet_pton6_length _ _ ha⟩
    · intro ha
      rw [ha]

/-- C4 witness: the amended statement applied at the token ::1 (valid,
sixteen octets appended) and at the 45-character token (within the
46-character bound, accepted). -/
theorem C4_ip6_decode_witness :
    parse_ip6 ⟨[], 0⟩ (bytes "::1") =
      (true, ⟨[0, 0, 0, 0, 0, 0, 0, 0, 0, 0, 0, 0, 0, 0, 0, 1], 16⟩) ∧
    parse_ip6 ⟨[], 0⟩ ip6_long_token = (true, ⟨ip6_long_addr, 16⟩) :=
  ⟨(((C4_ip6_decode ⟨[], 0⟩ (bytes "::1")).2 (by decide)).1
      [0, 0, 0, 0, 0, 0, 0, 0, 0, 0, 0, 0, 0, 0, 0, 1] (by decide)).1,
   (((C4_ip6_decode ⟨[], 0⟩ ip6_long_token).2 (by decide)).1
      ip6_long_addr (by decide)).1⟩

/-- C6 counterexample: with otherwise valid options whose origin string
x is present but not a valid name, zone_open performs its I/O (the file
open) before the error is detected, and zone_parse_string reports the
error with the raw parse_origin code -1, which is not the bad-parameter
code. -/
theorem C6_counterexample :
    check_options ⟨false, false, false, false, true, some (bytes "x"),
        3600, 1⟩ = ZONE_SUCCESS ∧
    parse_origin (bytes "x") = none ∧
    zone_open_m ⟨false, false, false, false, true, some (bytes "x"),
        3600, 1⟩ 0 = (ZONE_BAD_PARAMETER, true, none) ∧
    zone_parse_string_setup ⟨false, false, false, false, true,
        some (bytes "x"), 3600, 1⟩ = (-1, none) ∧
    (-1 : Int) ≠ ZONE_BAD_PARAMETER := by
  decide

/-- C6 amended: options rejected by check_options are reported with the
bad-parameter code before any I/O by both entry points; an origin that
is present but not a valid name is detected by zone_open only after the
zone file has been opened (still with the bad-parameter code), and is
reported by zone_parse_string (which performs no I/O) with the raw
parse_origin failure code -1 instead of the bad-parameter code. -/
theorem C6_param_errors (o : zone_options) (r : Int) :
    (check_options o < 0 →
      zone_open_m o r = (ZONE_BAD_PARAMETER, false, none) ∧
      zone_parse_string_setup o = (ZONE_BAD_PARAMETER, none)) ∧
    (check_options o = ZONE_SUCCESS → 0 ≤ r →
      parse_origin (o.origin.getD []) = none →
      zone_open_m o r = (ZONE_BAD_PARAMETER, true, none) ∧
      zone_parse_string_setup o = (-1, none)) := by
  constructor
  · intro hc
    have hbp : check_options o = ZONE_BAD_PARAMETER := by
      rcases check_options_cases o with h | h
      · rw [h] at hc
        exact absurd hc (by decide)
      · exact h
    unfold zone_open_m zone_parse_string_setup
    rw [if_pos hc, if_pos hc, hbp]
    exact ⟨rfl, rfl⟩
  · intro hc hr hpo
    unfold zone_open_m zone_parse_string_setup
    rw [hc]
    rw [if_neg (by decide : ¬ ZONE_SUCCESS < 0),
        if_neg (by decide : ¬ ZONE_SUCCESS < 0),
        if_neg (not_lt.mpr hr), hpo]
    exact ⟨rfl, rfl⟩

/-- C6 witness: the first part applied at options missing the accept
callback, the second at options whose origin x is not a valid name. -/
theorem C6_param_errors_witness :
    zone_open_m ⟨false, false, false, false, false, some (bytes "a."),
        3600, 1⟩ 0 = (ZONE_BAD_PARAMETER, false, none) ∧
    zone_parse_string_setup ⟨false, false, false, false, true,
        some (bytes "x"), 3600, 1⟩ = (-1, none) :=
  ⟨((C6_param_errors ⟨false, false, false, false, false, some (bytes "a."),
        3600, 1⟩ 0).1 (by decide)).1,
   ((C6_param_errors ⟨false, false, false, false, true, some (bytes "x"),
        3600, 1⟩ 0).2 (by decide) (by decide) (by decide)).2⟩

/-- The availability test of the selection loop as a predicate: a
target is usable when it needs no instruction set or its instruction
set intersects the supported mask. -/
def supportedBy (supported : Nat) (t : Target) : Bool :=
  t.instruction_set == 0 || (t.instruction_set &&& supported) != 0

/-- The selection loop returns the first usable target of the list. -/
lemma select_loop_eq_find (sup : Nat) (ts : List Target) :
    select_loop sup ts = ts.find? (supportedBy sup) := by
  induction ts with
  | nil => rfl
  | cons t ts ih =>
    unfold select_loop
    by_cases h : t.instruction_set = 0 ∨ t.instruction_set &&& sup ≠ 0
    · have hb : supportedBy sup t = true := by
        simp only [supportedBy, Bool.or_eq_true, beq_iff_eq, bne_iff_ne]
        exact h
      rw [if_pos h, List.find?_cons_of_pos _ hb]
    · have hb : supportedBy sup t = false := by
        simp only [supportedBy, Bool.or_eq_false_iff, beq_eq_false_iff_ne,
          bne_eq_false_iff_eq]
        push_neg at h
        exact ⟨h.1, h.2⟩
      rw [if_neg h, ih, List.find?_cons_of_neg _ (by simp [hb])]

/-- When no target name matches, the first loop of select_target runs
off the end of the array. -/
lemma find_target_index_none (p : List Nat) :
    ∀ ts : List Target, (∀ t ∈ ts, nameEq p t.name = false) →
      find_target_index p ts = none := by
  intro ts
  induction ts with
  | nil => intro _; rfl
  | cons t ts ih =>
    intro h
    unfold find_target_index
    rw [h t (List.mem_cons_self t ts)]
    simp only [Bool.false_eq_true, if_false]
    rw [ih fun u hu => h u (List.mem_cons_of_mem t hu)]
    rfl

/-- C5 counterexample: with a CPU mask supporting AVX2 but not SSE4.2,
forcing ZONE_TARGET to the unsupported westmere variant selects the
fallback, while the normal priority order selects haswell: selection
does not fall back to the normal priority order as the claim states. -/
theorem C5_counterexample :
    supportedBy AVX2 ⟨bytes "westmere", SSE42⟩ = false ∧
    select_target (some (bytes "westmere")) AVX2 = ⟨bytes "fallback", 0⟩ ∧
    select_target none AVX2 = ⟨bytes "haswell", AVX2⟩ ∧
    select_target (some (bytes "westmere")) AVX2 ≠ select_target none AVX2 := by
  decide

/-- C5 amended: selection always yields a usable member of the target
array; with no override it picks the first target in priority order
whose instruction set is supported (the fallback needs none); an
unrecognized ZONE_TARGET value selects exactly as no override does; and
when ZONE_TARGET names the target at position k, selection continues
down the priority order from position k (not from the top), taking the
first usable target from there. -/
theorem C5_select_target (sup : Nat) (pref : Option (List Nat)) :
    (supportedBy sup (select_target pref sup) = true ∧
      select_target pref sup ∈ targets) ∧
    (select_target none sup =
      (targets.find? (supportedBy sup)).getD ⟨bytes "fallback", 0⟩) ∧
    (∀ p, (∀ t ∈ targets, nameEq p t.name = false) →
      select_target (some p) sup = select_target none sup) ∧
    (∀ p k, find_target_index p targets = some k →
      select_target (some p) sup =
        ((targets.drop k).find? (supportedBy sup)).getD
          ⟨bytes "fallback", 0⟩) := by
  have hfall : supportedBy sup ⟨bytes "fallback", 0⟩ = true := rfl
  have hgen : ∀ q : Option (List Nat),
      select_target q sup =
        ((targets.drop (preferred_index q)).find? (supportedBy sup)).getD
          ⟨bytes "fallback", 0⟩ := by
    intro q
    unfold select_target
    rw [select_loop_eq_find]
    cases hf : (targets.drop (preferred_index q)).find? (supportedBy sup) with
    | none => rfl
    | some t => rfl
  refine ⟨?_, ?_, ?_, ?_⟩
  · rw [hgen pref]
    cases hf : (targets.drop (preferred_index pref)).find? (supportedBy sup) with
    | none =>
      simp only [Option.getD_none]
      exact ⟨hfall, by decide⟩
    | some t =>
      simp only [Option.getD_some]
      exact ⟨List.find?_some hf,
        List.mem_of_mem_drop (List.mem_of_find?_eq_some hf)⟩
  · rw [hgen none]
    rfl
  · intro p h
    rw [hgen (some p), hgen none]
    have : preferred_index (some p) = 0 := by
      show (find_target_index p targets).getD 0 = 0
      rw [find_target_index_none p targets h]
      rfl
    rw [this]
    rfl
  · intro p k hk
    rw [hgen (some p)]
    have : preferred_index (some p) = k := by
      show (find_target_index p targets).getD 0 = k
      rw [hk]
      rfl
    rw [this]

/-- C5 witness: an unknown ZONE_TARGET value selects as no override
does, and forcing westmere on an AVX2-only CPU continues the scan from
position 1 of the target array. -/
theorem C5_select_target_witness :
    select_target (some (bytes "bogus")) SSE42 = select_target none SSE42 ∧
    select_target (some (bytes "westmere")) AVX2 =
      ((targets.drop 1).find? (supportedBy AVX2)).getD
        ⟨bytes "fallback", 0⟩ :=
  ⟨(C5_select_target SSE42 none).2.2.1 (bytes "bogus") (by decide),
   (C5_select_target AVX2 none).2.2.2 (bytes "westmere") 1 (by decide)⟩

/-! ## Lemmas on the byte-string splitter, toward claim C7 -/

lemma splitByte_ne_nil (sep : Nat) (s : List Nat) : splitByte sep s ≠ [] := by
  induction s with
  | nil => simp [splitByte]
  | cons c rest ih =>
    unfold splitByte
    by_cases h : c = sep
    · rw [if_pos h]
      simp
    · rw [if_neg h]
      cases hs : splitByte sep rest with
      | nil => exact absurd hs ih
      | cons hh tt => simp

lemma splitByte_cons_sep (sep : Nat) (rest : List Nat) :
    splitByte sep (sep :: rest) = [] :: splitByte sep rest := by
  simp [splitByte]

lemma splitByte_cons_of_ne (sep c : Nat) (rest : List Nat) (hc : c ≠ sep) :
    splitByte sep (c :: rest) =
      (c :: (splitByte sep rest).headD []) :: (splitByte sep rest).tail := by
  cases hs : splitByte sep rest with
  | nil => exact absurd hs (splitByte_ne_nil sep rest)
  | cons hh tt => simp [splitByte, hc, hs]

lemma splitByte_append_sep (sep : Nat) (pre rest : List Nat)
    (h : sep ∉ pre) :
    splitByte sep (pre ++ sep :: rest) = pre :: splitByte sep rest := by
  induction pre with
  | nil => simp [splitByte]
  | cons c pre ih =>
    have hc : c ≠ sep := by
      intro hcc
      subst hcc
      exact h (List.mem_cons_self c pre)
    have hpre : sep ∉ pre := fun hm => h (List.mem_cons_of_mem c hm)
    rw [List.cons_append, splitByte_cons_of_ne sep c _ hc, ih hpre]
    simp

/-- When the input is nonempty and does not end in the separator, the
last chunk of the split is nonempty. -/
lemma splitByte_getLast_root (sep : Nat) :
    ∀ s : List Nat, s ≠ [] → s.getLast? ≠ some sep →
      (splitByte sep s).getLast? ≠ some [] := by
  intro s
  induction s with
  | nil => intro h; exact absurd rfl h
  | cons c rest ih =>
    intro _ hlast
    cases rest with
    | nil =>
      have hc : c ≠ sep := by
        intro hcc
        exact hlast (by simp [hcc])
      rw [splitByte_cons_of_ne sep c [] hc]
      simp [splitByte]
    | cons d rest2 =>
      have hlast2 : (d :: rest2).getLast? ≠ some sep := by
        rwa [List.getLast?_cons_cons] at hlast
      by_cases hc : c = sep
      · subst hc
        rw [splitByte_cons_sep]
        cases hX : splitByte c (d :: rest2) with
        | nil => exact absurd hX (splitByte_ne_nil _ _)
        | cons x xs =>
          rw [List.getLast?_cons_cons]
          have := ih (by simp) hlast2
          rwa [hX] at this
      · rw [splitByte_cons_of_ne sep c _ hc]
        cases hX : splitByte sep (d :: rest2) with
        | nil => exact absurd hX (splitByte_ne_nil _ _)
        | cons x xs =>
          simp only [List.headD_cons, List.tail_cons]
          cases xs with
          | nil => simp
          | cons y ys =>
            rw [List.getLast?_cons_cons]
            have := ih (by simp) hlast2
            rwa [hX, List.getLast?_cons_cons] at this

/-- The induction behind claim C7, over the loop of parse_origin with
its state generalized.  Whenever the loop succeeds from a state where
oct mirrors the C counter and the current label holds no dot, the final
dot-separated chunk of the remaining text is empty (the input ends at a
label boundary), the output is the completed labels followed by the
length-prefixed encoding of the remaining chunks and the root label,
every produced label is at most 63 octets, and the whole name is at
most 254 octets. -/
lemma po_loop_spec :
    ∀ (input done cur : List Nat) (oct : Nat) (out : List Nat),
      po_loop input done cur oct = some out →
      oct = 1 + done.length + cur.length →
      46 ∉ cur →
      (dotSplit (cur ++ input)).getLast? = some [] ∧
      out = done ++ flatLabels ((dotSplit (cur ++ input)).dropLast) ++ [0] ∧
      (∀ l ∈ (dotSplit (cur ++ input)).dropLast, l.length ≤ 63) ∧
      out.length ≤ 254 := by
  intro input
  induction input with
  | nil =>
    intro done cur oct out h hoct hcur
    unfold po_loop at h
    by_cases h1 : 255 ≤ oct
    · rw [if_pos h1] at h
      simp at h
    rw [if_neg h1] at h
    by_cases h2 : 63 < cur.length
    · rw [if_pos h2] at h
      simp at h
    rw [if_neg h2] at h
    by_cases h3 : cur.length ≠ 0
    · rw [if_pos h3] at h
      simp at h
    rw [if_neg h3] at h
    injection h with hout
    have hcurnil : cur = [] := List.eq_nil_of_length_eq_zero (by omega)
    subst hcurnil
    refine ⟨by simp [dotSplit, splitByte], ?_, by simp [dotSplit, splitByte], ?_⟩
    · rw [← hout]
      simp [dotSplit, splitByte, flatLabels]
    · rw [← hout]
      simp only [List.length_append, List.length_singleton]
      omega
  | cons c rest ih =>
    intro done cur oct out h hoct hcur
    unfold po_loop at h
    by_cases h1 : 255 ≤ oct
    · rw [if_pos h1] at h
      simp at h
    rw [if_neg h1] at h
    by_cases hc : c = 46
    · rw [if_pos hc] at h
      by_cases h3 : cur.length = 0 ∧ done ≠ []
      · rw [if_pos h3] at h
        simp at h
      rw [if_neg h3] at h
      by_cases h4 : 63 < cur.length
      · rw [if_pos h4] at h
        simp at h
      rw [if_neg h4] at h
      subst hc
      obtain ⟨ha, hb, hm, hl⟩ :=
        ih (done ++ cur.length :: cur) [] (oct + 1) out h
          (by simp only [List.length_append, List.length_cons,
                List.length_nil]; omega)
          (by simp)
      simp only [List.nil_append] at ha hb hm
      have hsplit : dotSplit (cur ++ 46 :: rest) = cur :: dotSplit rest := by
        exact splitByte_append_sep 46 cur rest hcur
      rw [hsplit]
      cases hds : dotSplit rest with
      | nil => exact absurd hds (splitByte_ne_nil 46 rest)
      | cons d0 ds =>
        rw [hds] at ha hb hm
        refine ⟨?_, ?_, ?_, hl⟩
        · rw [List.getLast?_cons_cons]
          exact ha
        · rw [List.dropLast_cons₂, hb]
          simp [flatLabels]
        · intro l hlmem
          rw [List.dropLast_cons₂] at hlmem
          rcases List.mem_cons.mp hlmem with hEq | hmem
          · subst hEq
            omega
          · exact hm l hmem
    · rw [if_neg hc] at h
      have hres := ih done (cur ++ [c]) (oct + 1) out h
        (by simp only [List.length_append, List.length_singleton]; omega)
        (by
          intro hmem
          rcases List.mem_append.mp hmem with hmem | hmem
          · exact hcur hmem
          · simp at hmem
            exact hc hmem.symm)
      rwa [List.append_cons cur c rest]

/-- C7: parse_origin converts the textual origin into a canonical
length-prefixed name: on success the output is exactly the
length-prefixed encoding of the dot-separated labels terminated by the
zero-length root label, every label is at most 63 octets and the total
is at most 255 octets; any origin with a label over 63 octets, any
origin whose conversion exceeds 255 octets, and any nonempty origin not
ending in the root label (no trailing dot) is rejected. -/
theorem C7_parse_origin (s : List Nat) :
    (∀ out, parse_origin s = some out →
      out = flatLabels ((dotSplit s).dropLast) ++ [0] ∧
      (∀ l ∈ (dotSplit s).dropLast, l.length ≤ 63) ∧
      out.length ≤ 255) ∧
    ((∃ l ∈ dotSplit s, 63 < l.length) → parse_origin s = none) ∧
    (255 < (flatLabels ((dotSplit s).dropLast) ++ [0]).length →
      parse_origin s = none) ∧
    (s ≠ [] → s.getLast? ≠ some 46 → parse_origin s = none) := by
  have hmain : ∀ out, parse_origin s = some out →
      (dotSplit s).getLast? = some [] ∧
      out = flatLabels ((dotSplit s).dropLast) ++ [0] ∧
      (∀ l ∈ (dotSplit s).dropLast, l.length ≤ 63) ∧
      out.length ≤ 254 := by
    intro out h
    have := po_loop_spec s [] [] 1 out h rfl (by simp)
    simpa using this
  refine ⟨?_, ?_, ?_, ?_⟩
  · intro out h
    obtain ⟨-, hb, hm, hl⟩ := hmain out h
    exact ⟨hb, hm, by omega⟩
  · intro hex
    obtain ⟨l, hlmem, hllen⟩ := hex
    cases hpo : parse_origin s with
    | none => rfl
    | some out =>
      exfalso
      obtain ⟨ha, -, hm, -⟩ := hmain out hpo
      have hsplit := List.dropLast_append_getLast? [] ha
      rw [← hsplit] at hlmem
      rcases List.mem_append.mp hlmem with hmem | hmem
      · exact absurd hllen (not_lt.mpr (hm l hmem))
      · simp at hmem
        subst hmem
        simp at hllen
  · intro hlen
    cases hpo : parse_origin s with
    | none => rfl
    | some out =>
      exfalso
      obtain ⟨-, hb, -, hl⟩ := hmain out hpo
      rw [hb] at hl
      omega
  · intro hs hlast
    cases hpo : parse_origin s with
    | none => rfl
    | some out =>
      exfalso
      obtain ⟨ha, -, -, -⟩ := hmain out hpo
      exact splitByte_getLast_root 46 s hs hlast ha

/-- C7 witness: the origin example.com. produces exactly the canonical
name 07 example 03 com 00, within all the claimed bounds. -/
theorem C7_parse_origin_witness :
    parse_origin (bytes "example.com.") =
      some [7, 101, 120, 97, 109, 112, 108, 101, 3, 99, 111, 109, 0] ∧
    [7, 101, 120, 97, 109, 112, 108, 101, 3, 99, 111, 109, 0] =
      flatLabels ((dotSplit (bytes "example.com.")).dropLast) ++ [0] ∧
    ([7, 101, 120, 97, 109, 112, 108, 101, 3, 99, 111, 109, 0] :
      List Nat).length ≤ 255 :=
  ⟨by decide,
   ((C7_parse_origin (bytes "example.com.")).1
      [7, 101, 120, 97, 109, 112, 108, 101, 3, 99, 111, 109, 0]
      (by decide)).1,
   ((C7_parse_origin (bytes "example.com.")).1
      [7, 101, 120, 97, 109, 112, 108, 101, 3, 99, 111, 109, 0]
      (by decide)).2.2⟩

end Simdzone
